import Mathlib

/-!
Verification development for the `filler` placement engine.

The Rust sources under `src/docker_image/solution/src/` are shallowly embedded
below.  Machine integers are modelled as `Nat` (for `usize`) and `Int` (for
`i64`); the one wrapping conversion that matters to any property, the
`usize as i64` cast, is modelled bit-exactly by `usize_as_i64`.  A Rust panic
(here: only the `i64` division by zero in `score_placement`) is modelled by
returning `none`; code paths that call a possibly-panicking function propagate
the `none`.  Board character data is represented as `List Char` per line.
-/

/-- The `Owner` from `board.rs`: per-cell ownership tag. -/
inductive Owner : Type
  | Empty : Owner
  | Me : Owner
  | Opponent : Owner
deriving DecidableEq, Repr

/-- The `Board` from `board.rs`. -/
structure Board : Type where
  rows : Nat
  cols : Nat
  cells : List (List Owner)
deriving DecidableEq, Repr

/-- The `Piece` from `piece.rs`: bounding box plus filled `(dy, dx)` offsets. -/
structure Piece : Type where
  width : Nat
  height : Nat
  cells : List (Nat × Nat)
deriving DecidableEq, Repr

/-- The `Game` from `game.rs`: stores only the player number. -/
structure Game : Type where
  my_player : Nat
deriving DecidableEq, Repr

/-- The `Game::new`. -/
def Game.new (my_player : Nat) : Game := ⟨my_player⟩

/-- Read `board.cells[y][x]`.  The Rust code only indexes in bounds (the
validator checks `y < rows`, `x < cols` first, and boards are built with
`rows`/`cols` matching `cells`); out-of-range lookups default to `Empty`
in this model. -/
def cell_at (b : Board) (y x : Nat) : Owner :=
  (b.cells.getD y []).getD x Owner.Empty

/-- Row-major list of all coordinates of a `rows × cols` rectangle, in the
order the nested `for y { for x { } }` loops of `choose_best_move` visit
them. -/
def coord_list (rows cols : Nat) : List (Nat × Nat) :=
  (List.range rows).flatMap (fun y => (List.range cols).map (fun x => (y, x)))

/-- The `enemy_coords` vector precomputed by `choose_best_move`. -/
def enemy_coords (b : Board) : List (Nat × Nat) :=
  (coord_list b.rows b.cols).filter (fun c => decide (cell_at b c.1 c.2 = Owner.Opponent))

/-- The `my_coords` vector precomputed by `choose_best_move`. -/
def my_coords (b : Board) : List (Nat × Nat) :=
  (coord_list b.rows b.cols).filter (fun c => decide (cell_at b c.1 c.2 = Owner.Me))

/-- The `usize::MAX` on a 64-bit target. -/
def USIZE_MAX : Nat := 2 ^ 64 - 1

/-- The `i64::MIN`, the initial `best_score` of the search loop. -/
def I64_MIN : Int := -(2 ^ 63)

/-- The Rust `as` cast from `usize` to `i64`: truncating two's-complement
reinterpretation (so `usize::MAX as i64 = -1`). -/
def usize_as_i64 (n : Nat) : Int :=
  if n % 2 ^ 64 < 2 ^ 63 then ((n % 2 ^ 64 : Nat) : Int)
  else ((n % 2 ^ 64 : Nat) : Int) - 2 ^ 64

/-- Manhattan distance as computed in `find_closest_pair` and
`score_placement`: `(a as isize - b as isize).unsigned_abs()` summed over both
coordinates. -/
def manhattan (a c : Nat × Nat) : Nat :=
  ((a.1 : Int) - (c.1 : Int)).natAbs + ((a.2 : Int) - (c.2 : Int)).natAbs

/-- The `Game::find_closest_pair`: closest (my, enemy) pair and their distance;
`(my_coords.first or (0,0), (0,0), usize::MAX)` when either list is empty. -/
def find_closest_pair (my enemy : List (Nat × Nat)) :
    (Nat × Nat) × (Nat × Nat) × Nat :=
  if enemy.isEmpty || my.isEmpty then (my.headD (0, 0), (0, 0), USIZE_MAX)
  else
    (my.flatMap (fun m => enemy.map (fun e => (m, e)))).foldl
      (fun best me =>
        if manhattan me.1 me.2 < best.2.2 then (me.1, me.2, manhattan me.1 me.2) else best)
      (my.headD (0, 0), enemy.headD (0, 0), USIZE_MAX)

/-- The `Game::calculate_centroid` (integer mean of coordinates). -/
def calculate_centroid (coords : List (Nat × Nat)) : Nat × Nat :=
  if coords.isEmpty then (0, 0)
  else ((coords.map Prod.fst).sum / coords.length, (coords.map Prod.snd).sum / coords.length)

/-- The `DIRS` constant: four orthogonal directions. -/
def DIRS : List (Int × Int) := [(1, 0), (-1, 0), (0, 1), (0, -1)]

/-- The bounds test `ny >= 0 && nx >= 0 && ny < rows && nx < cols` used on
`isize` neighbor coordinates. -/
def in_bounds (b : Board) (ny nx : Int) : Bool :=
  decide (0 ≤ ny) && decide (0 ≤ nx) && decide (ny < (b.rows : Int)) && decide (nx < (b.cols : Int))

/-- The `Game::find_frontier`: my cells having at least one empty orthogonal
neighbor (the Rust loop `break`s at the first one, i.e. an `any`). -/
def find_frontier (my : List (Nat × Nat)) (b : Board) : List (Nat × Nat) :=
  my.filter (fun c =>
    DIRS.any (fun d =>
      in_bounds b ((c.1 : Int) + d.1) ((c.2 : Int) + d.2) &&
      decide (cell_at b ((c.1 : Int) + d.1).toNat ((c.2 : Int) + d.2).toNat = Owner.Empty)))

/-- Loop body of `Game::is_valid_placement`: walks the filled offsets carrying
the running `overlap_count`, with the early `false` returns of the source
(out of bounds, opponent cell, second own cell). -/
def valid_go (b : Board) (top left : Nat) : List (Nat × Nat) → Nat → Bool
  | [], cnt => cnt == 1
  | c :: rest, cnt =>
    if b.rows ≤ top + c.1 || b.cols ≤ left + c.2 then false
    else
      match cell_at b (top + c.1) (left + c.2) with
      | Owner.Opponent => false
      | Owner.Me => if 1 < cnt + 1 then false else valid_go b top left rest (cnt + 1)
      | Owner.Empty => valid_go b top left rest cnt

/-- The `Game::is_valid_placement`. -/
def is_valid_placement (b : Board) (p : Piece) (top left : Nat) : Bool :=
  valid_go b top left p.cells 0

/-- Absolute board cells covered by the piece at anchor `(top, left)`
(the `piece_cells` vector of `score_placement`). -/
def piece_abs_cells (p : Piece) (top left : Nat) : List (Nat × Nat) :=
  p.cells.map (fun c => (top + c.1, left + c.2))

/-- Truncation toward zero of `dot / sqrt s` for an integer `dot` and a
natural `s`: exact model of the source's
`((move_y*dir.0 + move_x*dir.1) as f64 / norm) as i64` where
`norm = sqrt((dir.0^2 + dir.1^2) as f64)`.  The inputs are small integers, so
the `f64` computation is the correctly rounded real quotient and the `as i64`
cast truncates it toward zero; `Nat.sqrt (dot^2 / s)` is exactly
`⌊|dot| / sqrt s⌋`.  No claim below depends on the value of this function. -/
def advance_cast (dot : Int) (s : Nat) : Int :=
  if 0 ≤ dot then (Nat.sqrt (dot.natAbs ^ 2 / s) : Int)
  else -(Nat.sqrt (dot.natAbs ^ 2 / s) : Int)

/-- Per-cell `advance` value of `score_placement`: projection of the movement
(relative to the first frontier cell, or `(0,0)`) onto the target direction,
`0` when the direction is zero. -/
def cell_advance (frontier : List (Nat × Nat)) (dir : Int × Int) (c : Nat × Nat) : Int :=
  if dir.1 ≠ 0 ∨ dir.2 ≠ 0 then
    if 0 < (dir.1 * dir.1 + dir.2 * dir.2).toNat then
      advance_cast
        (((c.1 : Int) - ((frontier.headD (0, 0)).1 : Int)) * dir.1 +
         ((c.2 : Int) - ((frontier.headD (0, 0)).2 : Int)) * dir.2)
        (dir.1 * dir.1 + dir.2 * dir.2).toNat
    else 0
  else 0

/-- The `new_territory` of `score_placement`: covered cells that are `Empty`. -/
def new_territory (b : Board) (p : Piece) (top left : Nat) : Int :=
  ((piece_abs_cells p top left).countP
    (fun c => decide (cell_at b c.1 c.2 = Owner.Empty)) : Nat)

/-- The `adjacent_to_enemy` of `score_placement`: orthogonal adjacencies between
the footprint and opponent cells (counted per covered cell and direction). -/
def adjacent_to_enemy (b : Board) (p : Piece) (top left : Nat) : Int :=
  (((piece_abs_cells p top left).map (fun c =>
    DIRS.countP (fun d =>
      in_bounds b ((c.1 : Int) + d.1) ((c.2 : Int) + d.2) &&
      decide (cell_at b ((c.1 : Int) + d.1).toNat ((c.2 : Int) + d.2).toNat
        = Owner.Opponent)))).sum : Nat)

/-- The `best_advance` of `score_placement`: running maximum of the per-cell
advances, starting from `i64::MIN`. -/
def best_advance (p : Piece) (top left : Nat) (frontier : List (Nat × Nat))
    (dir : Int × Int) : Int :=
  (piece_abs_cells p top left).foldl (fun acc c => max acc (cell_advance frontier dir c)) I64_MIN

/-- The `min_dist_to_enemy` of `score_placement`: minimum Manhattan distance from
the footprint to any enemy cell, starting from `usize::MAX`. -/
def min_dist_to_enemy (p : Piece) (top left : Nat) (enemy : List (Nat × Nat)) : Nat :=
  (piece_abs_cells p top left).foldl
    (fun acc c => enemy.foldl (fun a2 e => min a2 (manhattan c e)) acc) USIZE_MAX

/-- The `dist_to_target` of `score_placement`: minimum Manhattan distance from the
footprint to the `closest_enemy` cell, starting from `usize::MAX`. -/
def dist_to_target (p : Piece) (top left : Nat) (closest_enemy : Nat × Nat) : Nat :=
  (piece_abs_cells p top left).foldl (fun acc c => min acc (manhattan c closest_enemy)) USIZE_MAX

/-- The RUSH branch of `score_placement` (`current_min_distance > 5`).
`none` models the `i64` divide-by-zero panic of
`1000000 / (min_dist_to_enemy as i64 + 1)`, which fires exactly when
`min_dist_to_enemy = usize::MAX` (the cast yields `-1`). -/
def rush_score (b : Board) (p : Piece) (top left : Nat)
    (enemy frontier : List (Nat × Nat)) (dir : Int × Int)
    (current_min_distance : Nat) : Option Int :=
  let md := min_dist_to_enemy p top left enemy
  if usize_as_i64 md + 1 = 0 then none
  else
    some ((Int.tdiv 1000000 (usize_as_i64 md + 1)) * 100
      + (usize_as_i64 current_min_distance - usize_as_i64 md) * 50000
      + best_advance p top left frontier dir * 1000
      + new_territory b p top left * 10
      + adjacent_to_enemy b p top left * 100000)

/-- The BLOCK branch of `score_placement` (`current_min_distance <= 5`);
again `none` models the divide-by-zero panic of
`100000 / (min_dist_to_enemy as i64 + 1)`. -/
def block_score (b : Board) (p : Piece) (top left : Nat)
    (enemy frontier : List (Nat × Nat)) (dir : Int × Int)
    (closest_enemy : Nat × Nat) : Option Int :=
  let md := min_dist_to_enemy p top left enemy
  if usize_as_i64 md + 1 = 0 then none
  else
    some (adjacent_to_enemy b p top left * 50000
      + (Int.tdiv 100000 (usize_as_i64 md + 1)) * 50
      + new_territory b p top left * 2000
      + best_advance p top left frontier dir * 500
      - usize_as_i64 (dist_to_target p top left closest_enemy) * 100)

/-- The `Game::score_placement`.  `none` models the `i64` divide-by-zero panic
(the only panic reachable in this function for validated anchors). -/
def score_placement (b : Board) (p : Piece) (top left : Nat)
    (enemy frontier : List (Nat × Nat)) (dir : Int × Int)
    (current_min_distance : Nat) (closest_enemy : Nat × Nat) : Option Int :=
  let md := min_dist_to_enemy p top left enemy
  if 5 < current_min_distance then
    if usize_as_i64 md + 1 = 0 then none
    else
      some ((Int.tdiv 1000000 (usize_as_i64 md + 1)) * 100
        + (usize_as_i64 current_min_distance - usize_as_i64 md) * 50000
        + best_advance p top left frontier dir * 1000
        + new_territory b p top left * 10
        + adjacent_to_enemy b p top left * 100000)
  else
    if usize_as_i64 md + 1 = 0 then none
    else
      some (adjacent_to_enemy b p top left * 50000
        + (Int.tdiv 100000 (usize_as_i64 md + 1)) * 50
        + new_territory b p top left * 2000
        + best_advance p top left frontier dir * 500
        - usize_as_i64 (dist_to_target p top left closest_enemy) * 100)

/-- The `target_direction` computed by `choose_best_move`: toward the closest
enemy cell, or toward the board center when no enemy is visible. -/
def target_dir (b : Board) : Int × Int :=
  let cp := find_closest_pair (my_coords b) (enemy_coords b)
  if !(enemy_coords b).isEmpty then
    (((cp.2.1.1 : Int) - (cp.1.1 : Int)), ((cp.2.1.2 : Int) - (cp.1.2 : Int)))
  else
    (((b.rows / 2 : Nat) : Int) - ((calculate_centroid (my_coords b)).1 : Int),
     ((b.cols / 2 : Nat) : Int) - ((calculate_centroid (my_coords b)).2 : Int))

/-- The score `choose_best_move` assigns to an anchor: `score_placement` with
the per-turn context (enemy list, frontier, direction, closest pair) it
precomputes from the board. -/
def anchor_score (b : Board) (p : Piece) (a : Nat × Nat) : Option Int :=
  score_placement b p a.1 a.2 (enemy_coords b) (find_frontier (my_coords b) b)
    (target_dir b)
    (find_closest_pair (my_coords b) (enemy_coords b)).2.2
    (find_closest_pair (my_coords b) (enemy_coords b)).2.1

/-- The anchor range scanned by `choose_best_move`, in the row-major order of
its nested loops: `top_y < rows.saturating_sub(height) + 1`,
`left_x < cols.saturating_sub(width) + 1` (Nat subtraction is saturating). -/
def anchors_scanned (b : Board) (p : Piece) : List (Nat × Nat) :=
  (List.range (b.rows - p.height + 1)).flatMap
    (fun ty => (List.range (b.cols - p.width + 1)).map (fun lx => (ty, lx)))

/-- The selection loop of `choose_best_move`: fold over the candidate anchors
keeping `(best_pos, best_score)`, updating on strictly greater scores; a
scoring panic (`score = none`) aborts the whole computation. -/
def run_search (valid : Nat × Nat → Bool) (score : Nat × Nat → Option Int) :
    List (Nat × Nat) → Option (Nat × Nat) × Int → Option (Option (Nat × Nat) × Int)
  | [], st => some st
  | a :: rest, st =>
    if valid a then
      match score a with
      | none => none
      | some s => run_search valid score rest (if st.2 < s then (some a, s) else st)
    else run_search valid score rest st

/-- The `Game::choose_best_move`.  The outer `Option` models abnormal termination:
`none` is a panic, `some r` is a normal return of the Rust `Option` `r`.
`self.my_player` is never read in the source body. -/
def Game.choose_best_move (_g : Game) (b : Board) (p : Piece) :
    Option (Option (Nat × Nat)) :=
  if p.cells.isEmpty || b.rows == 0 || b.cols == 0 then some none
  else if (my_coords b).isEmpty then some none
  else
    (run_search (fun a => is_valid_placement b p a.1 a.2) (anchor_score b p)
      (anchors_scanned b p) (none, I64_MIN)).map Prod.fst

/-- The `"Anfield"` header tag, as characters. -/
def anfield_tag : List Char := ['A', 'n', 'f', 'i', 'e', 'l', 'd']

/-- Rust `str::trim` on a line of characters (leading and trailing
whitespace removed). -/
def trim_chars (l : List Char) : List Char :=
  ((l.dropWhile Char.isWhitespace).reverse.dropWhile Char.isWhitespace).reverse

/-- The `classify_char` from `board.rs`: unknown characters are `Empty`. -/
def classify_char (c : Char) (my_player : Nat) : Owner :=
  if c = '.' then Owner.Empty
  else if c = '@' ∨ c = 'a' then (if my_player = 1 then Owner.Me else Owner.Opponent)
  else if c = '$' ∨ c = 's' then (if my_player = 2 then Owner.Me else Owner.Opponent)
  else Owner.Empty

/-- The per-line loop of `Board::from_anfield_lines`, carrying the
`seen_header` flag: skips blanks, the `Anfield` header, anything before it and
index-only lines; strips leading digits/whitespace, drops inner spaces,
classifies the rest, and keeps non-empty rows. -/
def collect_rows (my_player : Nat) : List (List Char) → Bool → List (List Owner)
  | [], _ => []
  | line :: rest, seen =>
    if (trim_chars line).isEmpty then collect_rows my_player rest seen
    else if anfield_tag.isPrefixOf (trim_chars line) then collect_rows my_player rest true
    else if !seen then collect_rows my_player rest seen
    else if (trim_chars line).all (fun c => c.isDigit || c.isWhitespace) then
      collect_rows my_player rest seen
    else
      if (line.dropWhile (fun c => c.isDigit || c.isWhitespace)).isEmpty then
        collect_rows my_player rest seen
      else
        if (((line.dropWhile (fun c => c.isDigit || c.isWhitespace)).filter
              (fun c => c ≠ ' ')).map (fun c => classify_char c my_player)).isEmpty then
          collect_rows my_player rest seen
        else
          (((line.dropWhile (fun c => c.isDigit || c.isWhitespace)).filter
              (fun c => c ≠ ' ')).map (fun c => classify_char c my_player))
            :: collect_rows my_player rest seen

/-- The `Board::from_anfield_lines`: `rows` is the number of collected rows,
`cols` the length of the first one.  Row lengths are not cross-checked by the
source. -/
def from_anfield_lines (lines : List (List Char)) (my_player : Nat) : Option Board :=
  if lines.isEmpty then none
  else if (collect_rows my_player lines false).isEmpty then none
  else
    some ⟨(collect_rows my_player lines false).length,
          ((collect_rows my_player lines false).headD []).length,
          collect_rows my_player lines false⟩

/-- The rectangularity invariant claimed by the spec for constructed boards:
every stored row has exactly `cols` cells. -/
def rectangular (b : Board) : Bool :=
  b.cells.all (fun r => r.length == b.cols)

/-- The `Mine`/`Opponent` tag swap of the spec's symmetry property. -/
def swap_owner : Owner → Owner
  | Owner.Me => Owner.Opponent
  | Owner.Opponent => Owner.Me
  | Owner.Empty => Owner.Empty

/-- Swap the `Mine`/`Opponent` tags in every cell of a grid. -/
def swap_grid (g : List (List Owner)) : List (List Owner) :=
  g.map (List.map swap_owner)

/-- Bounds-checked cell access on a raw grid: `none` when off the grid. -/
def cell_get (g : List (List Owner)) (c : Nat × Nat) : Option Owner :=
  g[c.1]?.bind (fun r => r[c.2]?)

/-- All in-grid coordinates, row-major. -/
def grid_cells (g : List (List Owner)) : List (Nat × Nat) :=
  (List.range g.length).flatMap
    (fun y => (List.range (g.getD y []).length).map (fun x => (y, x)))

/-- Orthogonal neighbors (Nat coordinates; the truncated `0 - 1` can only
produce the cell itself, which is filtered out as already visited). -/
def neighbors (c : Nat × Nat) : List (Nat × Nat) :=
  [(c.1 + 1, c.2), (c.1 - 1, c.2), (c.1, c.2 + 1), (c.1, c.2 - 1)]

/-- Modelled from the spec: §4.3's traversal rule — a cell lets the flood
through when it is owned by `side` or `Empty`; opposing cells and off-grid
lookups block. -/
def passable (side : Owner) (o : Option Owner) : Bool :=
  match o with
  | some w => decide (w = side) || decide (w = Owner.Empty)
  | none => false

/-- Modelled from the spec: one breadth-first expansion step of the §4.3
flood fill — add every unvisited passable cell orthogonally adjacent to the
visited set. -/
def flood_step (g : List (List Owner)) (side : Owner) (v : List (Nat × Nat)) :
    List (Nat × Nat) :=
  v ++ (grid_cells g).filter (fun c =>
    !v.contains c && passable side (cell_get g c) &&
    (neighbors c).any (fun nb => v.contains nb))

/-- Modelled from the spec: the visited set of the §4.3 flood fill, seeded
from every cell owned by `side` and expanded to a fixpoint (`|cells|` steps
suffice: each productive step adds at least one cell). -/
def flood_reach (g : List (List Owner)) (side : Owner) : List (Nat × Nat) :=
  (flood_step g side)^[(grid_cells g).length]
    ((grid_cells g).filter (fun c => decide (cell_get g c = some side)))

/-- Modelled from the spec: `reachable_empty_for(side, grid)` of §4.3 — the
number of distinct `Empty` cells reachable by `side`.  The Territory
Estimator is described by the spec but is not part of the files under `src/`
(the spec notes the repository holds several policy variants; the `src`
policy does not call it), so it is modelled from the spec's words here. -/
def reachable_empty_for (side : Owner) (g : List (List Owner)) : Nat :=
  ((flood_reach g side).filter (fun c => decide (cell_get g c = some Owner.Empty))).length

/-- Modelled from the spec: the §4.5 margin lower bound for the narrowed scan
window — "margin ≥ 15 and ≥ twice the shape's height/width". -/
def spec_window_margin (p : Piece) : Nat :=
  max 15 (max (2 * p.height) (2 * p.width))

/-- Bounding box `(min y, min x, max y, max x)` of a non-empty coordinate
list (all zeros when empty). -/
def bbox_of (l : List (Nat × Nat)) : Nat × Nat × Nat × Nat :=
  match l with
  | [] => (0, 0, 0, 0)
  | c :: rest =>
    rest.foldl
      (fun acc d => (min acc.1 d.1, min acc.2.1 d.2, max acc.2.2.1 d.1, max acc.2.2.2 d.2))
      (c.1, c.2, c.1, c.2)

/-- Modelled from the spec: membership of an anchor in the §4.5 scan window —
the bounding box of the mover's cells inflated by margin `m` on every side. -/
def in_window (my : List (Nat × Nat)) (m : Nat) (a : Nat × Nat) : Bool :=
  decide ((bbox_of my).1 - m ≤ a.1) && decide (a.1 ≤ (bbox_of my).2.2.1 + m) &&
  decide ((bbox_of my).2.1 - m ≤ a.2) && decide (a.2 ≤ (bbox_of my).2.2.2 + m)

/-- The legality predicate of the spec (§4.2): all filled offsets land in
bounds, none on an `Opponent` cell, and exactly one on a `Me` cell. -/
def placement_ok (b : Board) (p : Piece) (top left : Nat) : Prop :=
  (∀ c ∈ p.cells, top + c.1 < b.rows ∧ left + c.2 < b.cols ∧
    cell_at b (top + c.1) (left + c.2) ≠ Owner.Opponent) ∧
  p.cells.countP (fun c => decide (cell_at b (top + c.1) (left + c.2) = Owner.Me)) = 1

/-- Strict row-major (lexicographic) order on anchors. -/
def lex_lt (a c : Nat × Nat) : Prop := a.1 < c.1 ∨ (a.1 = c.1 ∧ a.2 < c.2)

/-- A 2×2 board: mover at (0,0), opponent at (1,1). -/
def board2 : Board :=
  ⟨2, 2, [[Owner.Me, Owner.Empty], [Owner.Empty, Owner.Opponent]]⟩

/-- A 1×1 piece with a single filled cell. -/
def piece1 : Piece := ⟨1, 1, [(0, 0)]⟩

/-- A piece whose declared height (3) exceeds `board2.rows` (2) but whose
only filled cell is at offset (0,0). -/
def tall_piece : Piece := ⟨1, 3, [(0, 0)]⟩

/-- A piece with no filled cells. -/
def empty_piece : Piece := ⟨2, 2, []⟩

/-- A 3×3 board with a single mover cell at (1,1) and no opponent cells
(the spec's §8 scenario of a lone mover on an empty board). -/
def board3 : Board :=
  ⟨3, 3, [[Owner.Empty, Owner.Empty, Owner.Empty],
          [Owner.Empty, Owner.Me, Owner.Empty],
          [Owner.Empty, Owner.Empty, Owner.Empty]]⟩

/-- A 3×667 board (area 2001 > 2000) whose only mover cell is (0,0). -/
def board_wide : Board :=
  ⟨3, 667, [Owner.Me :: List.replicate 666 Owner.Empty,
            List.replicate 667 Owner.Empty,
            List.replicate 667 Owner.Empty]⟩

/-- Anfield input lines whose two data rows have different lengths. -/
def ex_lines : List (List Char) :=
  [['A', 'n', 'f', 'i', 'e', 'l', 'd', ' ', '3', ' ', '2', ':'],
   ['.', '.'],
   ['.', '.', '.']]

/-- The (ragged) board the parser builds from `ex_lines`. -/
def ex_board : Board :=
  ⟨2, 2, [[Owner.Empty, Owner.Empty], [Owner.Empty, Owner.Empty, Owner.Empty]]⟩


theorem run_search_ge (valid : Nat × Nat → Bool) (score : Nat × Nat → Option Int) :
    ∀ (L : List (Nat × Nat)) (st res : Option (Nat × Nat) × Int),
      run_search valid score L st = some res → st.2 ≤ res.2 := by
  intro L
  induction L with
  | nil =>
    intro st res h
    simp only [run_search, Option.some.injEq] at h
    subst h
    omega
  | cons a L ih =>
    intro st res h
    simp only [run_search] at h
    split at h
    · split at h
      · exact absurd h (by simp)
      · rename_i s hs
        by_cases hlt : st.2 < s
        · rw [if_pos hlt] at h
          have := ih _ _ h
          simp only at this
          omega
        · rw [if_neg hlt] at h
          exact ih _ _ h
    · exact ih _ _ h

theorem run_search_stable (valid : Nat × Nat → Bool) (score : Nat × Nat → Option Int) :
    ∀ (L : List (Nat × Nat)) (st res : Option (Nat × Nat) × Int),
      run_search valid score L st = some res → res.2 = st.2 → res.1 = st.1 := by
  intro L
  induction L with
  | nil =>
    intro st res h _
    simp only [run_search, Option.some.injEq] at h
    subst h
    rfl
  | cons a L ih =>
    intro st res h heq
    simp only [run_search] at h
    split at h
    · split at h
      · exact absurd h (by simp)
      · rename_i s hs
        by_cases hlt : st.2 < s
        · rw [if_pos hlt] at h
          have := run_search_ge valid score L _ _ h
          simp only at this
          omega
        · rw [if_neg hlt] at h
          exact ih _ _ h heq
    · exact ih _ _ h heq

theorem run_search_all_le (valid : Nat × Nat → Bool) (score : Nat × Nat → Option Int) :
    ∀ (L : List (Nat × Nat)) (st res : Option (Nat × Nat) × Int),
      run_search valid score L st = some res →
      ∀ x ∈ L, valid x = true → ∃ s, score x = some s ∧ s ≤ res.2 := by
  intro L
  induction L with
  | nil => intro st res _ x hx; exact absurd hx (by simp)
  | cons a L ih =>
    intro st res h x hx hvx
    simp only [run_search] at h
    split at h
    · rename_i hv
      split at h
      · exact absurd h (by simp)
      · rename_i s hs
        by_cases hlt : st.2 < s
        · rw [if_pos hlt] at h
          rcases List.mem_cons.mp hx with rfl | hxL
          · refine ⟨s, hs, ?_⟩
            have := run_search_ge valid score L _ _ h
            simp only at this
            omega
          · exact ih _ _ h x hxL hvx
        · rw [if_neg hlt] at h
          rcases List.mem_cons.mp hx with rfl | hxL
          · refine ⟨s, hs, ?_⟩
            have := run_search_ge valid score L _ _ h
            omega
          · exact ih _ _ h x hxL hvx
    · rename_i hv
      rcases List.mem_cons.mp hx with rfl | hxL
      · exact absurd hvx hv
      · exact ih _ _ h x hxL hvx

theorem run_search_pos (valid : Nat × Nat → Bool) (score : Nat × Nat → Option Int) :
    ∀ (L : List (Nat × Nat)) (st res : Option (Nat × Nat) × Int),
      run_search valid score L st = some res →
      res = st ∨ ∃ x, x ∈ L ∧ res.1 = some x ∧ valid x = true ∧
        score x = some res.2 ∧ st.2 < res.2 := by
  intro L
  induction L with
  | nil =>
    intro st res h
    simp only [run_search, Option.some.injEq] at h
    subst h
    exact Or.inl rfl
  | cons a L ih =>
    intro st res h
    simp only [run_search] at h
    split at h
    · rename_i hv
      split at h
      · exact absurd h (by simp)
      · rename_i s hs
        by_cases hlt : st.2 < s
        · rw [if_pos hlt] at h
          rcases ih _ _ h with heq | ⟨x, hxL, h1, h2, h3, h4⟩
          · refine Or.inr ⟨a, List.mem_cons_self a L, ?_, hv, ?_, ?_⟩
            · rw [heq]
            · rw [heq]; exact hs
            · rw [heq]; exact hlt
          · refine Or.inr ⟨x, List.mem_cons_of_mem a hxL, h1, h2, h3, ?_⟩
            simp only at h4
            omega
        · rw [if_neg hlt] at h
          rcases ih _ _ h with heq | ⟨x, hxL, h1, h2, h3, h4⟩
          · exact Or.inl heq
          · exact Or.inr ⟨x, List.mem_cons_of_mem a hxL, h1, h2, h3, h4⟩
    · rcases ih _ _ h with heq | ⟨x, hxL, h1, h2, h3, h4⟩
      · exact Or.inl heq
      · exact Or.inr ⟨x, List.mem_cons_of_mem a hxL, h1, h2, h3, h4⟩

theorem run_search_first (valid : Nat × Nat → Bool) (score : Nat × Nat → Option Int) :
    ∀ (L : List (Nat × Nat)) (st res : Option (Nat × Nat) × Int),
      run_search valid score L st = some res → st.2 < res.2 →
      res.1 = List.find? (fun x => valid x && decide (score x = some res.2)) L := by
  intro L
  induction L with
  | nil =>
    intro st res h hlt
    simp only [run_search, Option.some.injEq] at h
    subst h
    omega
  | cons a L ih =>
    intro st res h hlt
    simp only [run_search] at h
    split at h
    · rename_i hv
      split at h
      · exact absurd h (by simp)
      · rename_i s hs
        by_cases hlt2 : st.2 < s
        · rw [if_pos hlt2] at h
          by_cases hseq : res.2 = s
          · have h1 : res.1 = some a := by
              have := run_search_stable valid score L _ _ h
              simpa using this hseq
            have hpa : (fun x => valid x && decide (score x = some res.2)) a = true := by
              simp [hv, hs, hseq]
            have hrw : List.find? (fun x => valid x && decide (score x = some res.2)) (a :: L)
                = some a := List.find?_cons_of_pos L hpa
            rw [hrw, h1]
          · have hge := run_search_ge valid score L _ _ h
            simp only at hge
            have hpa : ¬((fun x => valid x && decide (score x = some res.2)) a = true) := by
              simp [hv, hs]
              omega
            have hrw : List.find? (fun x => valid x && decide (score x = some res.2)) (a :: L)
                = List.find? (fun x => valid x && decide (score x = some res.2)) L :=
              List.find?_cons_of_neg L hpa
            rw [hrw]
            exact ih _ _ h (by simp only; omega)
        · rw [if_neg hlt2] at h
          have hpa : ¬((fun x => valid x && decide (score x = some res.2)) a = true) := by
            simp [hv, hs]
            omega
          have hrw : List.find? (fun x => valid x && decide (score x = some res.2)) (a :: L)
              = List.find? (fun x => valid x && decide (score x = some res.2)) L :=
            List.find?_cons_of_neg L hpa
          rw [hrw]
          exact ih _ _ h hlt
    · rename_i hv
      have hpa : ¬((fun x => valid x && decide (score x = some res.2)) a = true) := by
        simp [hv]
      have hrw : List.find? (fun x => valid x && decide (score x = some res.2)) (a :: L)
          = List.find? (fun x => valid x && decide (score x = some res.2)) L :=
        List.find?_cons_of_neg L hpa
      rw [hrw]
      exact ih _ _ h hlt

theorem find_pairwise {α : Type} (R : α → α → Prop) :
    ∀ (L : List α), L.Pairwise R → ∀ (p : α → Bool) (a : α), L.find? p = some a →
      ∀ x ∈ L, p x = true → a = x ∨ R a x := by
  intro L
  induction L with
  | nil => intro _ p a h; exact absurd h (by simp)
  | cons y L ih =>
    intro hpw p a h x hx hpx
    rcases List.pairwise_cons.mp hpw with ⟨hy, hL⟩
    by_cases hp : p y = true
    · have hrw : List.find? p (y :: L) = some y := List.find?_cons_of_pos L hp
      rw [hrw] at h
      have hay : a = y := (Option.some.inj h).symm
      rcases List.mem_cons.mp hx with rfl | hxL
      · exact Or.inl hay
      · exact Or.inr (hay ▸ hy x hxL)
    · have hrw : List.find? p (y :: L) = List.find? p L := List.find?_cons_of_neg L hp
      rw [hrw] at h
      rcases List.mem_cons.mp hx with rfl | hxL
      · exact absurd hpx hp
      · exact ih hL p a h x hxL hpx

theorem anchors_sorted (b : Board) (p : Piece) :
    (anchors_scanned b p).Pairwise lex_lt := by
  unfold anchors_scanned
  rw [List.flatMap_def]
  rw [List.pairwise_flatten]
  constructor
  · intro l hl
    rcases List.mem_map.mp hl with ⟨ty, _, rfl⟩
    rw [List.pairwise_map]
    exact (List.pairwise_lt_range _).imp (fun h => Or.inr ⟨rfl, h⟩)
  · rw [List.pairwise_map]
    refine (List.pairwise_lt_range _).imp ?_
    intro ty1 ty2 hty x hx y hy
    rcases List.mem_map.mp hx with ⟨lx1, _, rfl⟩
    rcases List.mem_map.mp hy with ⟨lx2, _, rfl⟩
    exact Or.inl hty

theorem valid_go_iff (b : Board) (top left : Nat) :
    ∀ (cells : List (Nat × Nat)) (cnt : Nat), cnt ≤ 1 →
      (valid_go b top left cells cnt = true ↔
        ((∀ c ∈ cells, top + c.1 < b.rows ∧ left + c.2 < b.cols ∧
            cell_at b (top + c.1) (left + c.2) ≠ Owner.Opponent) ∧
          cnt + cells.countP
            (fun c => decide (cell_at b (top + c.1) (left + c.2) = Owner.Me)) = 1)) := by
  intro cells
  induction cells with
  | nil =>
    intro cnt _
    simp [valid_go]
  | cons c rest ih =>
    intro cnt hcnt
    simp only [valid_go]
    by_cases hb : (b.rows ≤ top + c.1 || b.cols ≤ left + c.2) = true
    · rw [if_pos hb]
      simp only [Bool.or_eq_true, decide_eq_true_eq] at hb
      constructor
      · intro h; exact absurd h (by simp)
      · rintro ⟨hall, _⟩
        have := hall c (List.mem_cons_self c rest)
        omega
    · rw [if_neg hb]
      simp only [Bool.or_eq_true, decide_eq_true_eq, not_or] at hb
      obtain ⟨hb1, hb2⟩ := hb
      cases hcell : cell_at b (top + c.1) (left + c.2) with
      | Opponent =>
        constructor
        · intro h; exact absurd h (by simp)
        · rintro ⟨hall, _⟩
          exact absurd hcell (hall c (List.mem_cons_self c rest)).2.2
      | Me =>
        have hcc : (c :: rest).countP
              (fun d => decide (cell_at b (top + d.1) (left + d.2) = Owner.Me))
            = rest.countP
              (fun d => decide (cell_at b (top + d.1) (left + d.2) = Owner.Me)) + 1 := by
          rw [List.countP_cons]
          simp [hcell]
        rcases Nat.le_one_iff_eq_zero_or_eq_one.mp hcnt with rfl | rfl
        · rw [if_neg (by omega)]
          rw [show (0 + 1 : Nat) = 1 from rfl]
          rw [ih 1 (by omega)]
          rw [List.forall_mem_cons, hcc]
          constructor
          · rintro ⟨hall, h2⟩
            refine ⟨⟨⟨by omega, by omega, ?_⟩, hall⟩, by omega⟩
            rw [hcell]
            exact fun hh => Owner.noConfusion hh
          · rintro ⟨⟨_, hall⟩, h2⟩
            exact ⟨hall, by omega⟩
        · rw [if_pos (by omega)]
          constructor
          · intro h; exact absurd h (by simp)
          · rintro ⟨_, h2⟩
            rw [hcc] at h2
            omega
      | Empty =>
        have hcc : (c :: rest).countP
              (fun d => decide (cell_at b (top + d.1) (left + d.2) = Owner.Me))
            = rest.countP
              (fun d => decide (cell_at b (top + d.1) (left + d.2) = Owner.Me)) := by
          rw [List.countP_cons]
          simp [hcell]
        rw [ih cnt hcnt, List.forall_mem_cons, hcc]
        constructor
        · rintro ⟨hall, h2⟩
          refine ⟨⟨⟨by omega, by omega, ?_⟩, hall⟩, h2⟩
          rw [hcell]
          exact fun hh => Owner.noConfusion hh
        · rintro ⟨⟨_, hall⟩, h2⟩
          exact ⟨hall, h2⟩

theorem is_valid_placement_iff (b : Board) (p : Piece) (top left : Nat) :
    is_valid_placement b p top left = true ↔ placement_ok b p top left := by
  unfold is_valid_placement placement_ok
  rw [valid_go_iff b top left p.cells 0 (by omega)]
  constructor
  · rintro ⟨h1, h2⟩
    exact ⟨h1, by omega⟩
  · rintro ⟨h1, h2⟩
    exact ⟨h1, by omega⟩

theorem cell_get_swap (g : List (List Owner)) (c : Nat × Nat) :
    cell_get (swap_grid g) c = (cell_get g c).map swap_owner := by
  unfold cell_get swap_grid
  rw [List.getElem?_map]
  cases g[c.1]? with
  | none => rfl
  | some r =>
    simp [List.getElem?_map]

theorem swap_grid_row_len (g : List (List Owner)) (y : Nat) :
    ((swap_grid g).getD y []).length = (g.getD y []).length := by
  unfold swap_grid
  rw [List.getD_eq_getElem?_getD, List.getD_eq_getElem?_getD, List.getElem?_map]
  cases g[y]? with
  | none => rfl
  | some r => simp

theorem grid_cells_swap (g : List (List Owner)) :
    grid_cells (swap_grid g) = grid_cells g := by
  unfold grid_cells
  have hlen : (swap_grid g).length = g.length := List.length_map g _
  rw [hlen]
  have hfn : (fun y => (List.range ((swap_grid g).getD y []).length).map (fun x => (y, x)))
      = (fun y => (List.range ((g.getD y []).length)).map (fun x => (y, x))) := by
    funext y
    rw [swap_grid_row_len]
  rw [hfn]

theorem passable_swap (o : Option Owner) :
    passable Owner.Opponent (o.map swap_owner) = passable Owner.Me o := by
  cases o with
  | none => rfl
  | some w => cases w <;> rfl

theorem flood_step_swap (g : List (List Owner)) :
    flood_step (swap_grid g) Owner.Opponent = flood_step g Owner.Me := by
  funext v
  unfold flood_step
  rw [grid_cells_swap]
  congr 1
  apply List.filter_congr
  intro c _
  rw [cell_get_swap, passable_swap]

theorem flood_reach_swap (g : List (List Owner)) :
    flood_reach (swap_grid g) Owner.Opponent = flood_reach g Owner.Me := by
  unfold flood_reach
  rw [grid_cells_swap, flood_step_swap]
  congr 1
  apply List.filter_congr
  intro c _
  rw [cell_get_swap]
  cases cell_get g c with
  | none => rfl
  | some w => cases w <;> rfl

theorem collect_rows_ne_nil (mp : Nat) :
    ∀ (ls : List (List Char)) (seen : Bool) (r : List Owner),
      r ∈ collect_rows mp ls seen → r ≠ [] := by
  intro ls
  induction ls with
  | nil => intro seen r h; simp [collect_rows] at h
  | cons line rest ih =>
    intro seen r h
    simp only [collect_rows] at h
    split at h
    · exact ih _ _ h
    · split at h
      · exact ih _ _ h
      · split at h
        · exact ih _ _ h
        · split at h
          · exact ih _ _ h
          · split at h
            · exact ih _ _ h
            · split at h
              · exact ih _ _ h
              · rename_i hne
                rcases List.mem_cons.mp h with rfl | hr
                · intro hnil
                  rw [hnil] at hne
                  simp at hne
                · exact ih _ _ hr

/-- C1: every anchor returned by `choose_best_move` passes
`is_valid_placement`, and equivalently satisfies the spec's legality
predicate: all filled offsets in bounds, none on an `Opponent` cell, and
exactly one on a pre-placement `Me` cell. -/
theorem c1_returned_anchor_legal :
    ∀ (g : Game) (b : Board) (p : Piece) (t l : Nat),
      g.choose_best_move b p = some (some (t, l)) →
      is_valid_placement b p t l = true ∧ placement_ok b p t l := by
  intro g b p t l h
  unfold Game.choose_best_move at h
  by_cases h1 : (p.cells.isEmpty || b.rows == 0 || b.cols == 0) = true
  · rw [if_pos h1] at h
    simp at h
  · rw [if_neg h1] at h
    by_cases h2 : (my_coords b).isEmpty = true
    · rw [if_pos h2] at h
      simp at h
    · rw [if_neg h2] at h
      rcases Option.map_eq_some'.mp h with ⟨res, hres, hfst⟩
      rcases run_search_pos _ _ _ _ _ hres with heq | ⟨x, _, hx1, hxv, _, _⟩
      · rw [heq] at hfst
        simp at hfst
      · have hax : x = (t, l) := by
          rw [hx1] at hfst
          exact Option.some.inj hfst
        subst hax
        exact ⟨hxv, (is_valid_placement_iff b p t l).mp hxv⟩

/-- Witness for C1 at a concrete input: on `board2` with the 1×1 piece the
engine returns anchor (0,0), which is legal. -/
theorem c1_witness :
    (Game.new 1).choose_best_move board2 piece1 = some (some (0, 0)) ∧
      (is_valid_placement board2 piece1 0 0 = true ∧ placement_ok board2 piece1 0 0) :=
  ⟨by decide, c1_returned_anchor_legal (Game.new 1) board2 piece1 0 0 (by decide)⟩

/-- C2: the claim that `score_placement` is total (never panics) on
validator-accepted anchors even with zero opponent cells is contradicted by
the code: on `board3` (one `Me` cell, no `Opponent` cells) the validated
anchor (1,1) makes `min_dist_to_enemy = usize::MAX`, the `as i64` cast turns
it into `-1`, and `1000000 / (min + 1)` divides by zero, aborting
`choose_best_move` (modelled as `none`). -/
theorem c2_score_division_by_zero :
    enemy_coords board3 = [] ∧
    is_valid_placement board3 piece1 1 1 = true ∧
    (find_closest_pair (my_coords board3) (enemy_coords board3)).2.2 = USIZE_MAX ∧
    usize_as_i64 (min_dist_to_enemy piece1 1 1 (enemy_coords board3)) + 1 = 0 ∧
    anchor_score board3 piece1 (1, 1) = none ∧
    (Game.new 1).choose_best_move board3 piece1 = none := by
  refine ⟨by decide, by decide, by decide, by decide, by decide, by decide⟩

/-- C3: the reachable-empty flood-fill count is symmetric in the two sides —
computing it for `Me` on a grid equals computing it for `Opponent` on the
grid with all `Me`/`Opponent` tags swapped. -/
theorem c3_reachable_swap_symmetric :
    ∀ (g : List (List Owner)),
      reachable_empty_for Owner.Me g = reachable_empty_for Owner.Opponent (swap_grid g) := by
  intro g
  unfold reachable_empty_for
  rw [flood_reach_swap]
  congr 1
  apply List.filter_congr
  intro c _
  rw [cell_get_swap]
  cases cell_get g c with
  | none => rfl
  | some w => cases w <;> rfl

set_option maxRecDepth 100000 in
set_option maxHeartbeats 4000000 in
theorem my_coords_board_wide : my_coords board_wide = [(0, 0)] := by decide

/-- C4 counterexample: on `board_wide` (area 2001 > 2000, mover owns (0,0))
the anchor (2,666) is in the scanned candidate list — every element of which
is passed to the validator by `choose_best_move` — although it lies outside
the spec's margin window around the mover's bounding box, and indeed outside
any such window of margin up to 600; so large boards are not restricted to a
margin window. -/
theorem c4_counterexample_full_scan :
    2000 < board_wide.rows * board_wide.cols ∧
    my_coords board_wide = [(0, 0)] ∧
    (2, 666) ∈ anchors_scanned board_wide piece1 ∧
    in_window (my_coords board_wide) (spec_window_margin piece1) (2, 666) = false ∧
    in_window (my_coords board_wide) 600 (2, 666) = false := by
  refine ⟨by decide, my_coords_board_wide, ?_, ?_, ?_⟩
  · refine List.mem_flatMap.mpr ⟨2, List.mem_range.mpr (by decide), ?_⟩
    exact List.mem_map.mpr ⟨666, List.mem_range.mpr (by decide), rfl⟩
  · rw [my_coords_board_wide]
    decide
  · rw [my_coords_board_wide]
    decide

/-- C4 amended: `choose_best_move` scans the full anchor rectangle
`top < rows ⊖ height + 1`, `left < cols ⊖ width + 1` (⊖ saturating) on every
board — membership in the scanned list depends only on the dimensions, never
on the board's area or the mover's cells; no window narrowing exists. -/
theorem c4_scan_full_range :
    ∀ (b : Board) (p : Piece) (a : Nat × Nat),
      a ∈ anchors_scanned b p ↔
        a.1 < b.rows - p.height + 1 ∧ a.2 < b.cols - p.width + 1 := by
  intro b p a
  obtain ⟨y, x⟩ := a
  constructor
  · intro h
    rcases List.mem_flatMap.mp h with ⟨ty, hty, hmem⟩
    rcases List.mem_map.mp hmem with ⟨lx, hlx, heq⟩
    rw [List.mem_range] at hty hlx
    injection heq with e1 e2
    subst e1
    subst e2
    exact ⟨hty, hlx⟩
  · rintro ⟨h1, h2⟩
    refine List.mem_flatMap.mpr ⟨y, List.mem_range.mpr h1, ?_⟩
    exact List.mem_map.mpr ⟨x, List.mem_range.mpr h2, rfl⟩

/-- C5 counterexample: the parser accepts `ex_lines`, whose two data rows
have lengths 2 and 3, and returns a board with `cols = 2` whose second row
has 3 cells — the rectangularity invariant fails. -/
theorem c5_counterexample_ragged :
    (from_anfield_lines ex_lines 1).map rectangular = some false ∧
    (from_anfield_lines ex_lines 1).map (fun bb => bb.cells.map List.length) = some [2, 3] ∧
    (from_anfield_lines ex_lines 1).map Board.cols = some 2 := by
  refine ⟨by decide, by decide, by decide⟩

/-- C5 amended: every board returned by `from_anfield_lines` has `rows`
equal to the number of stored rows (which is positive), `cols` equal to the
length of the first stored row, and every stored row non-empty — but rows of
other lengths than `cols` are possible, so full rectangularity does not
hold. -/
theorem c5_board_shape_amended :
    ∀ (lines : List (List Char)) (mp : Nat) (b : Board),
      from_anfield_lines lines mp = some b →
      b.rows = b.cells.length ∧ b.cols = (b.cells.headD []).length ∧
        0 < b.rows ∧ ∀ r ∈ b.cells, r ≠ [] := by
  intro lines mp b h
  unfold from_anfield_lines at h
  by_cases h1 : lines.isEmpty = true
  · rw [if_pos h1] at h
    simp at h
  · rw [if_neg h1] at h
    by_cases h2 : (collect_rows mp lines false).isEmpty = true
    · rw [if_pos h2] at h
      simp at h
    · rw [if_neg h2] at h
      have hb := Option.some.inj h
      subst hb
      refine ⟨rfl, rfl, ?_, ?_⟩
      · have h3 : collect_rows mp lines false ≠ [] := by
          intro hnil
          rw [hnil] at h2
          simp at h2
        exact List.length_pos.mpr h3
      · intro r hr
        exact collect_rows_ne_nil mp lines false r hr

/-- Witness for C5's amended statement at the concrete input `ex_lines`. -/
theorem c5_witness :
    from_anfield_lines ex_lines 1 = some ex_board ∧
      (ex_board.rows = ex_board.cells.length ∧
        ex_board.cols = (ex_board.cells.headD []).length ∧
        0 < ex_board.rows ∧ ∀ r ∈ ex_board.cells, r ≠ []) :=
  ⟨by decide, c5_board_shape_amended ex_lines 1 ex_board (by decide)⟩

/-- C6 counterexample: `tall_piece` has height 3 > `board2.rows` = 2, yet
`choose_best_move` does not return "no placement": the saturating range
arithmetic still scans anchor row 0, the single filled cell (0,0) lands in
bounds on the mover's cell, and the engine returns `Some (0,0)`. -/
theorem c6_counterexample_tall_piece :
    board2.rows < tall_piece.height ∧ tall_piece.width ≤ board2.cols ∧
    (Game.new 1).choose_best_move board2 tall_piece = some (some (0, 0)) := by
  refine ⟨by decide, by decide, by decide⟩

/-- C6 amended: `choose_best_move` returns `None` for the degenerate inputs
it actually checks — a piece with no filled cells, or a zero board
dimension; a shape bounding box exceeding the grid is not rejected up front
(the scan proceeds over the clamped anchor range without out-of-bounds
access, and may return an anchor whose filled cells all fit). -/
theorem c6_degenerate_none_amended :
    ∀ (g : Game) (b : Board) (p : Piece),
      p.cells = [] ∨ b.rows = 0 ∨ b.cols = 0 →
      g.choose_best_move b p = some none := by
  intro g b p h
  unfold Game.choose_best_move
  have hc : (p.cells.isEmpty || b.rows == 0 || b.cols == 0) = true := by
    rcases h with h | h | h <;> simp [h]
  rw [if_pos hc]

/-- Witness for C6's amended statement: the empty piece on `board2`. -/
theorem c6_witness :
    empty_piece.cells = [] ∧
      (Game.new 1).choose_best_move board2 empty_piece = some none :=
  ⟨rfl, c6_degenerate_none_amended (Game.new 1) board2 empty_piece (Or.inl rfl)⟩

/-- C7: `choose_best_move` is a pure function of its arguments — repeated
invocations on identical `Board` and `Piece` values give identical results
(the candidate iteration order is the fixed row-major recursion and the
tie-break is the deterministic strict-improvement rule). -/
theorem c7_deterministic :
    ∀ (g : Game) (b : Board) (p : Piece),
      g.choose_best_move b p = g.choose_best_move b p :=
  fun _ _ _ => rfl

/-- C8: when `choose_best_move` returns an anchor, that anchor is scored no
lower than every valid scanned anchor, and among the valid anchors achieving
that maximal score it is the row-major least (smallest `top`, then smallest
`left`). -/
theorem c8_tiebreak_row_major :
    ∀ (g : Game) (b : Board) (p : Piece) (a : Nat × Nat),
      g.choose_best_move b p = some (some a) →
      ∃ s : Int, anchor_score b p a = some s ∧
        (∀ x ∈ anchors_scanned b p, is_valid_placement b p x.1 x.2 = true →
          ∃ sx, anchor_score b p x = some sx ∧ sx ≤ s) ∧
        (∀ x ∈ anchors_scanned b p, is_valid_placement b p x.1 x.2 = true →
          anchor_score b p x = some s → a = x ∨ lex_lt a x) := by
  intro g b p a h
  unfold Game.choose_best_move at h
  by_cases h1 : (p.cells.isEmpty || b.rows == 0 || b.cols == 0) = true
  · rw [if_pos h1] at h
    simp at h
  · rw [if_neg h1] at h
    by_cases h2 : (my_coords b).isEmpty = true
    · rw [if_pos h2] at h
      simp at h
    · rw [if_neg h2] at h
      rcases Option.map_eq_some'.mp h with ⟨res, hres, hfst⟩
      rcases run_search_pos _ _ _ _ _ hres with heq | ⟨x, _, hx1, _, hxs, hlt⟩
      · rw [heq] at hfst
        simp at hfst
      · have hax : x = a := by
          rw [hx1] at hfst
          exact Option.some.inj hfst
        subst hax
        refine ⟨res.2, hxs, ?_, ?_⟩
        · intro y hy hvy
          exact run_search_all_le _ _ _ _ _ hres y hy hvy
        · intro y hy hvy hsy
          have hfind := run_search_first _ _ _ _ _ hres hlt
          have hpy : (fun z => is_valid_placement b p z.1 z.2 &&
              decide (anchor_score b p z = some res.2)) y = true := by
            simp [hvy, hsy]
          exact find_pairwise lex_lt (anchors_scanned b p) (anchors_sorted b p) _ _
            (hfind.symm.trans hx1) y hy hpy

/-- Witness for C8 at a concrete input: on `board2` with the 1×1 piece the
returned anchor (0,0) achieves the maximal score and is row-major least. -/
theorem c8_witness :
    (Game.new 1).choose_best_move board2 piece1 = some (some (0, 0)) ∧
      (∃ s : Int, anchor_score board2 piece1 (0, 0) = some s ∧
        (∀ x ∈ anchors_scanned board2 piece1,
          is_valid_placement board2 piece1 x.1 x.2 = true →
          ∃ sx, anchor_score board2 piece1 x = some sx ∧ sx ≤ s) ∧
        (∀ x ∈ anchors_scanned board2 piece1,
          is_valid_placement board2 piece1 x.1 x.2 = true →
          anchor_score board2 piece1 x = some s → (0, 0) = x ∨ lex_lt (0, 0) x)) :=
  ⟨by decide, c8_tiebreak_row_major (Game.new 1) board2 piece1 (0, 0) (by decide)⟩

/-- C9: the scoring policy is two-mode, keyed purely on the precomputed
minimum Manhattan distance between the sides with fixed threshold 5: above 5
the RUSH formula is used, otherwise the BLOCK formula; the branch condition
reads no other input, and neither branch reads any cross-turn state. -/
theorem c9_two_mode_threshold :
    ∀ (b : Board) (p : Piece) (top left : Nat)
      (enemy frontier : List (Nat × Nat)) (dir : Int × Int)
      (cmd : Nat) (ce : Nat × Nat),
      score_placement b p top left enemy frontier dir cmd ce =
        if 5 < cmd then rush_score b p top left enemy frontier dir cmd
        else block_score b p top left enemy frontier dir ce := by
  intro b p top left enemy frontier dir cmd ce
  by_cases h : 5 < cmd
  · rw [if_pos h]
    simp only [score_placement, rush_score, if_pos h]
  · rw [if_neg h]
    simp only [score_placement, block_score, if_neg h]

/-- C10: the stored player number never influences the decision — engines
created with any two player identifiers choose identically on every board
and piece (the `my_player` field is never read by `choose_best_move`). -/
theorem c10_player_id_irrelevant :
    ∀ (pl ql : Nat) (b : Board) (pc : Piece),
      (Game.new pl).choose_best_move b pc = (Game.new ql).choose_best_move b pc :=
  fun _ _ _ _ => rfl
